import Mathlib

/-!
Shallow embedding of the poker bot's betting/turn engine
(`pokerapp/pokerbotmodel.py`, `pokerapp/improved_entities.py`,
`pokerapp/db.py`).  Money is modelled as `Int` (the Python code stores
plain `int`s in SQLite), user ids and game ids as `Nat` (the Python code
uses strings; only equality of ids is ever used), and the key-value store
as total functions with the persistent default folded in.  The float
expression `round(game_pot * (authorized / players_authorized))` in
`finish_rate` is modelled by round-half-to-even on the exact ratio
`game_pot * authorized / players_authorized` (what `round()` computes on
the exact value), implemented with integer floor division.
-/

namespace Poker

/-- Constant `MAX_PLAYERS` from pokerbotmodel.py. -/
def MAX_PLAYERS : Nat := 8

/-- Constant `MIN_PLAYERS` from pokerbotmodel.py (the non-debug `_min_players`). -/
def MIN_PLAYERS : Nat := 2

/-- Constant `SMALL_BLIND` from pokerbotmodel.py. -/
def SMALL_BLIND : Int := 5

/-- Constant `DEFAULT_MONEY` from pokerbotmodel.py. -/
def DEFAULT_MONEY : Int := 1000

/-- `PlayerState` enum from improved_entities.py. -/
inductive PlayerState where
  | ACTIVE
  | FOLD
  | ALL_IN
deriving DecidableEq, Repr

/-- `GameState` enum from improved_entities.py. -/
inductive GameState where
  | INITIAL
  | ROUND_PRE_FLOP
  | ROUND_FLOP
  | ROUND_TURN
  | ROUND_RIVER
  | FINISHED
deriving DecidableEq, Repr

/-- The slice of the SQLite store used by `WalletManagerModel`
(db.py): the `wallets` table (free balance per user) and the
`authorized_money` table (escrow per user and game). -/
structure KV where
  balance : Nat → Int
  auth : Nat → Nat → Int

/-- Write a user's row of the `wallets` table. -/
def KV.setBalance (kv : KV) (u : Nat) (v : Int) : KV :=
  { kv with balance := fun u' => if u' = u then v else kv.balance u' }

/-- Write a (user, game) row of the `authorized_money` table
(`SQLiteDB.set_authorized_money`). -/
def KV.setAuth (kv : KV) (u g : Nat) (v : Int) : KV :=
  { kv with auth := fun u' g' => if u' = u ∧ g' = g then v else kv.auth u' g' }

/-- `WalletManagerModel.inc`: raises `UserException` (modelled as `none`,
with the store untouched) when the balance would go negative, otherwise
adds `amount` to the free balance. -/
def KV.inc (kv : KV) (u : Nat) (amount : Int) : Option KV :=
  if kv.balance u + amount < 0 then none
  else some (kv.setBalance u (kv.balance u + amount))

/-- `WalletManagerModel.inc_authorized_money`: read-add-write on the
escrow record. -/
def KV.inc_authorized_money (kv : KV) (u g : Nat) (amount : Int) : KV :=
  kv.setAuth u g (kv.auth u g + amount)

/-- `WalletManagerModel.authorize`: first bumps the escrow record, then
runs `inc(-amount)`.  When `inc` raises, the escrow bump has already
happened, so the failing result keeps it (first component `false`). -/
def KV.authorize (kv : KV) (u g : Nat) (amount : Int) : Bool × KV :=
  let kv1 := kv.inc_authorized_money u g amount
  match kv1.inc u (-amount) with
  | some kv2 => (true, kv2)
  | none => (false, kv1)

/-- `WalletManagerModel.authorize_all`: moves the whole free balance into
escrow and returns the amount moved. -/
def KV.authorize_all (kv : KV) (u g : Nat) : Int × KV :=
  let w := kv.balance u
  let kv1 := kv.inc_authorized_money u g w
  (w, kv1.setBalance u 0)

/-- `WalletManagerModel.approve`: deletes the escrow record for a game
(a missing row reads as 0, `SQLiteDB.get_authorized_money`). -/
def KV.approve (kv : KV) (u g : Nat) : KV :=
  kv.setAuth u g 0

/-- `Player` from improved_entities.py, restricted to the fields the
betting engine reads or writes (cards and display fields dropped;
the wallet lives in the shared store `KV`, keyed by `userId`). -/
structure Player where
  userId : Nat
  state : PlayerState
  roundRate : Int
deriving DecidableEq, Repr

/-- `Game` from improved_entities.py, restricted to the fields the
betting engine reads or writes.  `cardsTable` and `remainCards` model the
lengths of `cards_table` and `remain_cards` (card identity never affects
the money flow).  `tradingEndUserId` starts as the sentinel 0, matching
`trading_end_user_id = 0` in `Game.reset`. -/
structure Game where
  id : Nat
  pot : Int
  maxRoundRate : Int
  state : GameState
  players : List Player
  currentPlayerIndex : Int
  tradingEndUserId : Nat
  readyUsers : List Nat
  cardsTable : Nat
  remainCards : Nat

/-- `Game.reset` from improved_entities.py; `nid` stands for the fresh
`uuid4()` (menu-message bookkeeping and timestamps dropped). -/
def Game.reset (_g : Game) (nid : Nat) : Game :=
  { id := nid
    pot := 0
    maxRoundRate := 0
    state := GameState.INITIAL
    players := []
    currentPlayerIndex := -1
    tradingEndUserId := 0
    readyUsers := []
    cardsTable := 0
    remainCards := 52 }

/-- `Game.players_by`. -/
def Game.players_by (g : Game) (states : List PlayerState) : List Player :=
  g.players.filter (fun p => p.state ∈ states)

/-- The room's mutable state: the `Game` aggregate plus the shared
key-value store the wallets live in. -/
structure World where
  game : Game
  kv : KV

/-- `RoundRateModel.raise_rate_bet`, acting on the player at index `i` of
`game.players` (the Python code passes the aliased `Player` object).
The Bool records whether `authorize` succeeded; on failure
(`UserException`) the escrow bump persists but neither the player nor the
game fields are updated.  An out-of-range index never occurs in the
source (players are always drawn from the list) and leaves the world
unchanged. -/
def raise_rate_bet (w : World) (i : Nat) (amount : Int) : Bool × World :=
  match w.game.players[i]? with
  | none => (true, w)
  | some p =>
    let amt := amount + w.game.maxRoundRate - p.roundRate
    match w.kv.authorize p.userId w.game.id amt with
    | (false, kv') => (false, { w with kv := kv' })
    | (true, kv') =>
      let p' := { p with roundRate := p.roundRate + amt }
      (true,
        { game := { w.game with
            players := w.game.players.set i p'
            maxRoundRate := p.roundRate + amt
            tradingEndUserId := p.userId }
          kv := kv' })

/-- `RoundRateModel.call_check` for the player at index `i`. -/
def call_check (w : World) (i : Nat) : Bool × World :=
  match w.game.players[i]? with
  | none => (true, w)
  | some p =>
    let amt := w.game.maxRoundRate - p.roundRate
    match w.kv.authorize p.userId w.game.id amt with
    | (false, kv') => (false, { w with kv := kv' })
    | (true, kv') =>
      let p' := { p with roundRate := p.roundRate + amt }
      (true,
        { game := { w.game with players := w.game.players.set i p' }
          kv := kv' })

/-- `RoundRateModel.all_in` for the player at index `i`; returns the
amount moved. -/
def all_in (w : World) (i : Nat) : Int × World :=
  match w.game.players[i]? with
  | none => (0, w)
  | some p =>
    let r := w.kv.authorize_all p.userId w.game.id
    let p' : Player := { p with roundRate := p.roundRate + r.1 }
    let g1 : Game := { w.game with players := w.game.players.set i p' }
    let g2 :=
      if g1.maxRoundRate < p'.roundRate then
        { g1 with maxRoundRate := p'.roundRate, tradingEndUserId := p.userId }
      else g1
    (r.1, { game := g2, kv := r.2 })

/-- `RoundRateModel.to_pot`: moves every round rate into the pot, resets
the high-water mark, and points the closing seat at the first player
(the source indexes `game.players[0]`, which is never empty there; an
empty list keeps the previous closing seat). -/
def to_pot (w : World) : World :=
  { w with game := { w.game with
      pot := w.game.pot + (w.game.players.map (fun p => p.roundRate)).sum
      players := w.game.players.map (fun p => { p with roundRate := 0 })
      maxRoundRate := 0
      tradingEndUserId :=
        ((w.game.players.head?).map (fun p => p.userId)).getD
          w.game.tradingEndUserId } }

/-- Python 3 `round()` applied to the exact ratio `n / d`: round half to
even.  Every use has `d > 0` (the `players_authorized <= 0` guard skips
the tier otherwise).  For positive `d`, `Int.ediv`/`Int.emod` are floor
division with remainder `r ∈ [0, d)`, so the exact value is
`q + r/d` and comparing `2*r` against `d` decides whether the fraction
is below, above, or exactly one half. -/
def roundHalfEven (n d : Int) : Int :=
  let q := Int.ediv n d
  let r := Int.emod n d
  if 2 * r < d then q
  else if d < 2 * r then q + 1
  else if q % 2 = 0 then q else q + 1

/-- `RoundRateModel._sum_authorized_money` over a tier of user ids. -/
def sum_authorized_money (w : World) (tier : List Nat) : Int :=
  (tier.map (fun u => w.kv.auth u w.game.id)).sum

/-- One player's payout inside `RoundRateModel.finish_rate`:
`win_money = min(win_money_real, win_money_can_get)` with
`win_money_real = round(game_pot * (authorized / players_authorized))`
— the rounded exact ratio `game_pot * authorized / players_authorized` —
and `win_money_can_get = authorized * len(game.players)`. -/
def winAmount (w : World) (gamePot tierAuth : Int) (nPlayers u : Nat) : Int :=
  min (roundHalfEven (gamePot * w.kv.auth u w.game.id) tierAuth)
      (w.kv.auth u w.game.id * (nPlayers : Int))

/-- Inner loop of `RoundRateModel.finish_rate` over one tier.  `gamePot`
is the pot snapshot taken at the head of the tier, `tierAuth` the tier's
summed escrow, `nPlayers` the seat count `len(game.players)`.  The loop
breaks once the pot is exhausted; `none` models a `UserException` from
`inc` escaping `finish_rate` (never hit on nonnegative balances). -/
def finishRatePay (gamePot tierAuth : Int) (nPlayers : Nat) :
    List Nat → World → List (Nat × Int) → Option (World × List (Nat × Int))
  | [], w, acc => some (w, acc)
  | u :: rest, w, acc =>
    if w.game.pot ≤ 0 then some (w, acc)
    else
      match w.kv.inc u (winAmount w gamePot tierAuth nPlayers u) with
      | none => none
      | some kv' =>
        finishRatePay gamePot tierAuth nPlayers rest
          { game := { w.game with
              pot := w.game.pot - winAmount w gamePot tierAuth nPlayers u }
            kv := kv' }
          (acc ++ [(u, winAmount w gamePot tierAuth nPlayers u)])

/-- Outer loop of `RoundRateModel.finish_rate` over the score tiers
(strongest first, as produced by sorting the score dict descending).
Tiers whose summed escrow is not positive are skipped. -/
def finishRateTiers :
    List (List Nat) → World → List (Nat × Int) → Option (World × List (Nat × Int))
  | [], w, acc => some (w, acc)
  | tier :: rest, w, acc =>
    let tierAuth := sum_authorized_money w tier
    if tierAuth ≤ 0 then finishRateTiers rest w acc
    else
      match finishRatePay w.game.pot tierAuth w.game.players.length tier w acc with
      | none => none
      | some r => finishRateTiers rest r.1 r.2

/-- `RoundRateModel.finish_rate`: hand identity of the winners is
irrelevant to the money flow, so a tier is a list of user ids; the
returned list holds the recorded payout tuples (user, amount). -/
def finish_rate (w : World) (tiers : List (List Nat)) :
    Option (World × List (Nat × Int)) :=
  finishRateTiers tiers w []

/-- `PokerBotModel._finish`, money-flow slice: statistics recording and
transport calls touch neither the game nor the wallets and are omitted;
`eval` stands for the external `WinnerDetermination` applied to the
active players, `nid` for the fresh hand id `game.reset()` draws. -/
def finishHand (eval : List Player → List (List Nat)) (nid : Nat) (w : World) :
    Option (World × List (Nat × Int)) :=
  let w1 := to_pot w
  let active := w1.game.players_by [PlayerState.ACTIVE, PlayerState.ALL_IN]
  match finish_rate w1 (eval active) with
  | none => none
  | some r => some ({ r.1 with game := r.1.game.reset nid }, r.2)

/-- `PokerBotModel.add_cards_to_table`: deals `count` cards from the deck
to the table (the transport message is dropped). -/
def add_cards_to_table (count : Nat) (w : World) : World :=
  { w with game := { w.game with
      cardsTable := w.game.cardsTable + count
      remainCards := w.game.remainCards - count } }

/-- The `active_players[0].state = PlayerState.ALL_IN` write in
`_goto_next_round`: flips the first ACTIVE player to ALL_IN. -/
def Game.setLoneActiveAllIn (g : Game) : Game :=
  match g.players.findIdx? (fun p => p.state = PlayerState.ACTIVE) with
  | none => g
  | some i =>
    match g.players[i]? with
    | none => g
    | some p => { g with players := g.players.set i { p with state := PlayerState.ALL_IN } }

/-- The street-advance table of `PokerBotModel._goto_next_round`: the
state is set to its successor before the processor runs; an unmapped
state raises (`none`). -/
def streetTransition (eval : List Player → List (List Nat)) (nid : Nat)
    (w : World) : Option World :=
  match w.game.state with
  | GameState.ROUND_PRE_FLOP =>
    some (add_cards_to_table 3 { w with game := { w.game with state := GameState.ROUND_FLOP } })
  | GameState.ROUND_FLOP =>
    some (add_cards_to_table 1 { w with game := { w.game with state := GameState.ROUND_TURN } })
  | GameState.ROUND_TURN =>
    some (add_cards_to_table 1 { w with game := { w.game with state := GameState.ROUND_RIVER } })
  | GameState.ROUND_RIVER =>
    (finishHand eval nid { w with game := { w.game with state := GameState.FINISHED } }).map Prod.fst
  | _ => none

/-- `PokerBotModel._goto_next_round`.  When a single ACTIVE player is
left it is flipped to ALL_IN, and with a full board the hand is finished
at once; otherwise the street advances per the transition table. -/
def gotoNextRound (eval : List Player → List (List Nat)) (nid : Nat)
    (w : World) : Option World :=
  if (w.game.players_by [PlayerState.ACTIVE]).length = 1 then
    let w1 : World := { w with game := w.game.setLoneActiveAllIn }
    if w1.game.cardsTable = 5 then (finishHand eval nid w1).map Prod.fst
    else streetTransition eval nid w1
  else streetTransition eval nid w

/-- `PokerBotModel._current_turn_player`'s index computation
`current_player_index % len(game.players)` (Python `%` and Lean `Int`'s
`%` both return a value in `[0, len)` for a positive length). -/
def current_turn_index (g : Game) : Nat :=
  (g.currentPlayerIndex % (g.players.length : Int)).toNat

/-- `PokerBotModel._process_playing`.  `fuel` bounds the source's
self-recursion when skipping inactive seats (Python's stack depth);
`none` models an unhandled exception or fuel exhaustion, both
unreachable in the flows the claims visit.  Transport calls and
`last_turn_time` are dropped. -/
def processPlaying (eval : List Player → List (List Nat)) (nid : Nat) :
    Nat → World → Option World
  | 0, _ => none
  | fuel+1, w =>
    let n := w.game.players.length
    if n = 0 then none
    else
      let idx1 : Int := (w.game.currentPlayerIndex + 1) % (n : Int)
      let w1 : World := { w with game := { w.game with currentPlayerIndex := idx1 } }
      let afterRound : Option World :=
        match w1.game.players[idx1.toNat]? with
        | none => none
        | some cp =>
          if cp.userId = w1.game.tradingEndUserId then
            (gotoNextRound eval nid (to_pot w1)).map
              (fun w2 => { w2 with game := { w2.game with currentPlayerIndex := 0 } })
          else some w1
      match afterRound with
      | none => none
      | some w2 =>
        if w2.game.state = GameState.INITIAL then some w2
        else
          let j := current_turn_index w2.game
          match w2.game.players[j]? with
          | none => none
          | some cp2 =>
            let money := w2.kv.balance cp2.userId
            let cp3 : Player :=
              if money ≤ 0 then { cp2 with state := PlayerState.ALL_IN } else cp2
            let w3 : World :=
              if money ≤ 0 then
                { w2 with game := { w2.game with players := w2.game.players.set j cp3 } }
              else w2
            if cp3.state ≠ PlayerState.ACTIVE then processPlaying eval nid fuel w3
            else if (w3.game.players_by [PlayerState.ACTIVE, PlayerState.ALL_IN]).length = 1 then
              (finishHand eval nid w3).map Prod.fst
            else some w3

/-- `PokerBotModel._start_game`: enter PRE_FLOP, deal two hole cards per
player, post the two blinds via `raise_rate_bet`, run the first
`_process_playing`, then set the closing seat to seat `2 % n`.  A blind
that cannot be authorized raises out of the handler (`none`). -/
def startGame (eval : List Player → List (List Nat)) (nid fuel : Nat)
    (w : World) : Option World :=
  let g1 : Game := { w.game with
      state := GameState.ROUND_PRE_FLOP
      remainCards := w.game.remainCards - 2 * w.game.players.length
      currentPlayerIndex := 1 }
  match raise_rate_bet { w with game := g1 } 0 SMALL_BLIND with
  | (false, _) => none
  | (true, w3) =>
    match raise_rate_bet w3 1 SMALL_BLIND with
    | (false, _) => none
    | (true, w4) =>
      match processPlaying eval nid fuel w4 with
      | none => none
      | some w5 =>
        match w5.game.players[2 % w5.game.players.length]? with
        | none => none
        | some dealer =>
          some { w5 with game := { w5.game with tradingEndUserId := dealer.userId } }

/-- `PokerBotModel.ready` (the /ready command), seating slice.
`privateChatOk` stands for the user having started a private chat with
the bot, `chatMembers` for `get_chat_members_count`.  The returned Bool
says whether the player was seated; replies are transport-only.  (The
source's `user.id in game.ready_users` test compares an int against
stored strings and so never fires at runtime; it is modelled as the
intended membership test, which no claim exercises.) -/
def ready (eval : List Player → List (List Nat)) (nid fuel : Nat) (w : World)
    (uid : Nat) (privateChatOk : Bool) (chatMembers : Nat) : Bool × Option World :=
  if w.game.state ≠ GameState.INITIAL then (false, some w)
  else if MAX_PLAYERS ≤ w.game.players.length then (false, some w)
  else if privateChatOk = false then (false, some w)
  else if uid ∈ w.game.readyUsers then (false, some w)
  else if w.kv.balance uid < 2 * SMALL_BLIND then (false, some w)
  else
    let g1 : Game := { w.game with
        readyUsers := w.game.readyUsers ++ [uid]
        players := w.game.players ++ [{ userId := uid, state := PlayerState.ACTIVE, roundRate := 0 }] }
    let w1 : World := { w with game := g1 }
    if MIN_PLAYERS ≤ g1.players.length ∧ g1.players.length = chatMembers - 1 then
      (true, startGame eval nid fuel w1)
    else (true, some w1)

/-- `PokerBotModel.handle_ready_button` (the inline ready button),
seating slice: same guards as `ready` plus the explicit duplicate-seat
scan of `game.players`; never auto-starts the game. -/
def handle_ready_button (w : World) (uid : Nat) (privateChatOk : Bool) :
    Bool × World :=
  if w.game.state ≠ GameState.INITIAL then (false, w)
  else if MAX_PLAYERS ≤ w.game.players.length then (false, w)
  else if privateChatOk = false then (false, w)
  else if uid ∈ w.game.readyUsers then (false, w)
  else if w.game.players.any (fun p => p.userId = uid) then (false, w)
  else if w.kv.balance uid < 2 * SMALL_BLIND then (false, w)
  else
    (true, { w with game := { w.game with
        readyUsers := w.game.readyUsers ++ [uid]
        players := w.game.players ++ [{ userId := uid, state := PlayerState.ACTIVE, roundRate := 0 }] } })

/-- `PokerBotModel.start` (the /start command), group-chat slice: the
deal is attempted from INITIAL or FINISHED; a chat with one non-bot
member only gets the description text; with enough seated players
`_start_game` runs (Bool: whether it did). -/
def start (eval : List Player → List (List Nat)) (nid fuel : Nat) (w : World)
    (chatMembers : Nat) : Bool × Option World :=
  if ¬(w.game.state = GameState.INITIAL ∨ w.game.state = GameState.FINISHED) then
    (false, some w)
  else if chatMembers - 1 = 1 then (false, some w)
  else if MIN_PLAYERS ≤ w.game.players.length then (true, startGame eval nid fuel w)
  else (false, some w)

/-- Outcome classification for `PokerBotModel.raise_rate_bet` (the
handler): redirected to all-in, completed, or `UserException` caught
(message sent, turn not advanced). -/
inductive RaiseOutcome where
  | allInRedirect
  | raised
  | insufficientFunds
deriving DecidableEq, Repr

/-- `PokerBotModel.all_in` (the handler): go all-in, mark the player
ALL_IN, advance the turn. -/
def all_in_handler (eval : List Player → List (List Nat)) (nid fuel : Nat)
    (w : World) : Option World :=
  let i := current_turn_index w.game
  match w.game.players[i]? with
  | none => none
  | some _ =>
    let r := all_in w i
    match r.2.game.players[i]? with
    | none => none
    | some p =>
      processPlaying eval nid fuel
        { r.2 with game := { r.2.game with
            players := r.2.game.players.set i { p with state := PlayerState.ALL_IN } } }

/-- `PokerBotModel.raise_rate_bet` (the handler): redirects to all-in
when the free balance is below the raise amount (only the raise amount,
not the full delta); otherwise attempts the raise, and a `UserException`
from the wallet is caught, leaving the partially updated state. -/
def raise_rate_bet_handler (eval : List Player → List (List Nat))
    (nid fuel : Nat) (w : World) (raiseAmt : Int) : RaiseOutcome × Option World :=
  let i := current_turn_index w.game
  match w.game.players[i]? with
  | none => (RaiseOutcome.raised, none)
  | some p =>
    if w.kv.balance p.userId < raiseAmt then
      (RaiseOutcome.allInRedirect, all_in_handler eval nid fuel w)
    else
      match raise_rate_bet w i raiseAmt with
      | (false, w1) => (RaiseOutcome.insufficientFunds, some w1)
      | (true, w1) => (RaiseOutcome.raised, processPlaying eval nid fuel w1)

/-! ## Measurement definitions used by the statements -/

/-- The four betting streets. -/
def streets : List GameState :=
  [GameState.ROUND_PRE_FLOP, GameState.ROUND_FLOP, GameState.ROUND_TURN,
   GameState.ROUND_RIVER]

/-- Sum of the seated players' current round rates. -/
def sumRates (w : World) : Int :=
  (w.game.players.map (fun p => p.roundRate)).sum

/-- Sum of the seated players' escrow records for the current hand id. -/
def sumAuth (w : World) : Int :=
  (w.game.players.map (fun p => w.kv.auth p.userId w.game.id)).sum

/-- The pot/round-rate/escrow balance equation of claim C9. -/
def potInv (w : World) : Prop :=
  w.game.pot + sumRates w = sumAuth w

/-- Total money debited from the seated players' wallets relative to the
balances `b0` they had when the hand began. -/
def debited (b0 : Nat → Int) (w : World) : Int :=
  (w.game.players.map (fun p => b0 p.userId - w.kv.balance p.userId)).sum

/-- Total amount the recorded payout tuples credit to user `u`. -/
def paidTo (res : List (Nat × Int)) (u : Nat) : Int :=
  (res.map (fun x => if x.1 = u then x.2 else 0)).sum

/-- One seat or act operation of a hand: a seating request and the four
`RoundRateModel` money operations. -/
inductive HandOp where
  | seat (uid : Nat) (privateChatOk : Bool)
  | raiseBet (i : Nat) (amount : Int)
  | callCheckOp (i : Nat)
  | allInOp (i : Nat)
  | toPotOp
deriving DecidableEq, Repr

/-- Apply one operation to the room state (result flags dropped; a failed
authorization keeps the partially updated state exactly as the source
leaves it after catching the `UserException`). -/
def applyOp (w : World) : HandOp → World
  | HandOp.seat uid pc => (handle_ready_button w uid pc).2
  | HandOp.raiseBet i amt => (raise_rate_bet w i amt).2
  | HandOp.callCheckOp i => (call_check w i).2
  | HandOp.allInOp i => (all_in w i).2
  | HandOp.toPotOp => to_pot w

/-- Run a sequence of seat/act operations. -/
def runOps (w : World) (ops : List HandOp) : World :=
  ops.foldl applyOp w

/-- The invariant carried across a hand: the state stays on a street (so
seating requests keep being rejected), the seated user ids stay distinct,
and the pot plus the outstanding round rates account exactly for the
money taken out of the seated wallets since the hand began (`b0` is the
balance function at hand start). -/
def handInv (b0 : Nat → Int) (w : World) : Prop :=
  w.game.state ∈ streets ∧
  (w.game.players.map (fun q => q.userId)).Nodup ∧
  w.game.pot + sumRates w = debited b0 w

/-! ## Concrete states used by counterexamples and witnesses -/

/-- A store where everyone holds the default stake and no escrow. -/
def kvRich : KV := { balance := fun _ => 1000, auth := fun _ _ => 0 }

/-- Hand start of a two-player hand (ids 1 and 2, hand id 7). -/
def wTwo : World :=
  { game :=
    { id := 7, pot := 0, maxRoundRate := 0, state := GameState.ROUND_PRE_FLOP
      players := [{ userId := 1, state := PlayerState.ACTIVE, roundRate := 0 },
                  { userId := 2, state := PlayerState.ACTIVE, roundRate := 0 }]
      currentPlayerIndex := 1, tradingEndUserId := 0, readyUsers := [1, 2]
      cardsTable := 0, remainCards := 48 }
    kv := kvRich }

/-- Mid-hand state where seat 0 has bet 20 and the current player (seat 1,
user 2) holds only 30: a raise of 25 needs a delta of 45. -/
def wShort : World :=
  { game :=
    { id := 7, pot := 0, maxRoundRate := 20, state := GameState.ROUND_PRE_FLOP
      players := [{ userId := 1, state := PlayerState.ACTIVE, roundRate := 20 },
                  { userId := 2, state := PlayerState.ACTIVE, roundRate := 0 }]
      currentPlayerIndex := 1, tradingEndUserId := 1, readyUsers := []
      cardsTable := 0, remainCards := 48 }
    kv := { balance := fun u => if u = 2 then 30 else 1000
            auth := fun u g => if u = 1 ∧ g = 7 then 20 else 0 } }

/-- Showdown state of a four-player hand: the three tied winners escrowed
1 each, the folded player 2, so the pot holds 5. -/
def wRoundingPot : World :=
  { game :=
    { id := 7, pot := 5, maxRoundRate := 0, state := GameState.ROUND_RIVER
      players := [{ userId := 0, state := PlayerState.ACTIVE, roundRate := 0 },
                  { userId := 1, state := PlayerState.ACTIVE, roundRate := 0 },
                  { userId := 2, state := PlayerState.ACTIVE, roundRate := 0 },
                  { userId := 3, state := PlayerState.FOLD, roundRate := 0 }]
      currentPlayerIndex := 0, tradingEndUserId := 0, readyUsers := []
      cardsTable := 5, remainCards := 43 }
    kv := { balance := fun _ => 1000
            auth := fun u g => if g = 7 then (if u ≤ 2 then 1 else if u = 3 then 2 else 0) else 0 } }

/-- Three-player hand where everyone but the short all-in player (user 2,
escrow 1) folded after wagering 100 each: the pot holds 201. -/
def wLastStanding : World :=
  { game :=
    { id := 7, pot := 201, maxRoundRate := 0, state := GameState.ROUND_PRE_FLOP
      players := [{ userId := 0, state := PlayerState.FOLD, roundRate := 0 },
                  { userId := 1, state := PlayerState.FOLD, roundRate := 0 },
                  { userId := 2, state := PlayerState.ALL_IN, roundRate := 0 }]
      currentPlayerIndex := 0, tradingEndUserId := 0, readyUsers := []
      cardsTable := 0, remainCards := 46 }
    kv := { balance := fun _ => 1000
            auth := fun u g => if g = 7 then (if u = 2 then 1 else if u ≤ 1 then 100 else 0) else 0 } }

/-- Two-player hand at the river with 5 escrowed by each player as blinds
and 10 in round rates still to be moved; hand id 7. -/
def wSettle : World :=
  { game :=
    { id := 7, pot := 20, maxRoundRate := 0, state := GameState.ROUND_RIVER
      players := [{ userId := 0, state := PlayerState.ACTIVE, roundRate := 5 },
                  { userId := 1, state := PlayerState.ACTIVE, roundRate := 5 }]
      currentPlayerIndex := 0, tradingEndUserId := 0, readyUsers := []
      cardsTable := 5, remainCards := 43 }
    kv := { balance := fun _ => 985
            auth := fun u g => if g = 7 ∧ u ≤ 1 then 15 else 0 } }

/-- Three-player hand whose sole survivor (user 2) escrowed 10 while the
two folded blinds escrowed 5 together: the pot of 15 is below the
survivor's cap 10 × 3. -/
def wBlinds : World :=
  { game :=
    { id := 7, pot := 15, maxRoundRate := 0, state := GameState.ROUND_PRE_FLOP
      players := [{ userId := 0, state := PlayerState.FOLD, roundRate := 0 },
                  { userId := 1, state := PlayerState.FOLD, roundRate := 0 },
                  { userId := 2, state := PlayerState.ACTIVE, roundRate := 0 }]
      currentPlayerIndex := 0, tradingEndUserId := 0, readyUsers := []
      cardsTable := 0, remainCards := 46 }
    kv := { balance := fun _ => 990
            auth := fun u g => if g = 7 then (if u = 2 then 10 else if u = 0 then 5 else 0) else 0 } }

/-- A finished game with two seated players, used for the seating/deal
state-machine claims. -/
def wFinished : World :=
  { game :=
    { id := 7, pot := 0, maxRoundRate := 0, state := GameState.FINISHED
      players := [{ userId := 1, state := PlayerState.ACTIVE, roundRate := 0 },
                  { userId := 2, state := PlayerState.ACTIVE, roundRate := 0 }]
      currentPlayerIndex := -1, tradingEndUserId := 0, readyUsers := [1, 2]
      cardsTable := 0, remainCards := 52 }
    kv := kvRich }

/-- A wallet state holding 5, for the authorization atomicity claim. -/
def kvPoor : KV := { balance := fun u => if u = 1 then 5 else 1000, auth := fun _ _ => 0 }

/-- A trivial winner determination used where the evaluator is never
reached. -/
def evalNone : List Player → List (List Nat) := fun _ => []

/-- The winner determination that reports all active players tied in a
single tier, in seat order. -/
def evalAllTied : List Player → List (List Nat) :=
  fun ps => [ps.map (fun p => p.userId)]

/-! ## Helper lemmas -/

theorem sum_map_set {α : Type} (l : List α) (i : Nat) (p a : α) (f : α → Int)
    (h : l[i]? = some p) :
    ((l.set i a).map f).sum = (l.map f).sum + (f a - f p) := by
  induction l generalizing i with
  | nil => simp at h
  | cons x t ih =>
    cases i with
    | zero =>
      simp only [List.getElem?_cons_zero, Option.some.injEq] at h
      subst h
      simp [List.set]
      ring
    | succ n =>
      simp only [List.getElem?_cons_succ] at h
      simp only [List.set, List.map_cons, List.sum_cons, ih n h]
      ring

theorem set_getElem_self {α : Type} (l : List α) (i : Nat) (p : α)
    (h : l[i]? = some p) : l.set i p = l := by
  induction l generalizing i with
  | nil => simp at h
  | cons x t ih =>
    cases i with
    | zero =>
      simp only [List.getElem?_cons_zero, Option.some.injEq] at h
      subst h
      rfl
    | succ n =>
      simp only [List.getElem?_cons_succ] at h
      simp [List.set, ih n h]

theorem mem_of_getElem_some {α : Type} (l : List α) (i : Nat) (p : α)
    (h : l[i]? = some p) : p ∈ l := by
  induction l generalizing i with
  | nil => simp at h
  | cons x t ih =>
    cases i with
    | zero =>
      simp only [List.getElem?_cons_zero, Option.some.injEq] at h
      subst h
      exact List.mem_cons_self x t
    | succ n =>
      simp only [List.getElem?_cons_succ] at h
      exact List.mem_cons_of_mem x (ih n h)

theorem sum_ids_update (l : List Player) (f g : Nat → Int) (u : Nat)
    (hnd : (l.map (fun q => q.userId)).Nodup)
    (hu : u ∈ l.map (fun q => q.userId))
    (hfg : ∀ v, v ≠ u → g v = f v) :
    (l.map (fun p => g p.userId)).sum
      = (l.map (fun p => f p.userId)).sum + (g u - f u) := by
  induction l with
  | nil => simp at hu
  | cons x t ih =>
    rw [List.map_cons] at hnd hu
    rcases List.nodup_cons.mp hnd with ⟨hx, hnd'⟩
    rcases List.mem_cons.mp hu with h1 | h2
    · have hxt : ∀ q ∈ t, g q.userId = f q.userId := by
        intro q hq
        refine hfg _ (fun he => hx ?_)
        rw [← h1, ← he]
        exact List.mem_map.mpr ⟨q, hq, rfl⟩
      rw [List.map_cons, List.map_cons, List.sum_cons, List.sum_cons,
        List.map_congr_left hxt, ← h1]
      ring
    · have hxu : x.userId ≠ u := fun he => hx (he ▸ h2)
      rw [List.map_cons, List.map_cons, List.sum_cons, List.sum_cons,
        hfg _ hxu, ih hnd' h2]
      ring

theorem authorize_fst (kv : KV) (u g : Nat) (amt : Int) :
    (kv.authorize u g amt).1 = false ↔ kv.balance u < amt := by
  by_cases h : kv.balance u + -amt < 0 <;>
    simp [KV.authorize, KV.inc, KV.inc_authorized_money, KV.setAuth, h] <;>
    omega

theorem authorize_auth (kv : KV) (u g : Nat) (amt : Int) (v G : Nat) :
    ((kv.authorize u g amt).2).auth v G =
      if v = u ∧ G = g then kv.auth u g + amt else kv.auth v G := by
  by_cases h : kv.balance u + -amt < 0 <;>
    simp [KV.authorize, KV.inc, KV.inc_authorized_money, KV.setAuth,
      KV.setBalance, h]

theorem authorize_balance_false (kv : KV) (u g : Nat) (amt : Int)
    (h : (kv.authorize u g amt).1 = false) (v : Nat) :
    ((kv.authorize u g amt).2).balance v = kv.balance v := by
  have hlt : kv.balance u < amt := (authorize_fst kv u g amt).mp h
  have h' : kv.balance u + -amt < 0 := by omega
  simp [KV.authorize, KV.inc, KV.inc_authorized_money, KV.setAuth, h']

theorem authorize_balance_true (kv : KV) (u g : Nat) (amt : Int)
    (h : (kv.authorize u g amt).1 = true) (v : Nat) :
    ((kv.authorize u g amt).2).balance v =
      if v = u then kv.balance u - amt else kv.balance v := by
  have h' : ¬ kv.balance u + -amt < 0 := by
    intro hc
    have hf := (authorize_fst kv u g amt).mpr (by omega)
    rw [hf] at h
    exact Bool.false_ne_true h
  simp only [KV.authorize, KV.inc, KV.inc_authorized_money, KV.setAuth,
    KV.setBalance, h', if_false]
  split <;> omega

theorem authorize_all_spec (kv : KV) (u g : Nat) :
    (kv.authorize_all u g).1 = kv.balance u ∧
    (∀ v, ((kv.authorize_all u g).2).balance v = if v = u then 0 else kv.balance v) ∧
    (∀ v G, ((kv.authorize_all u g).2).auth v G =
      if v = u ∧ G = g then kv.auth u g + kv.balance u else kv.auth v G) := by
  refine ⟨rfl, ?_, ?_⟩ <;> intros <;>
    simp [KV.authorize_all, KV.inc_authorized_money, KV.setAuth, KV.setBalance]

theorem authorize_snd_false (kv : KV) (u g : Nat) (amt : Int)
    (h : (kv.authorize u g amt).1 = false) :
    (kv.authorize u g amt).2 = kv.inc_authorized_money u g amt := by
  by_cases h' : kv.balance u + -amt < 0
  · simp [KV.authorize, KV.inc, KV.inc_authorized_money, KV.setAuth, h']
  · simp [KV.authorize, KV.inc, KV.inc_authorized_money, KV.setAuth, h'] at h

theorem handle_ready_button_reject (w : World) (uid : Nat) (pc : Bool)
    (h : w.game.state ≠ GameState.INITIAL) :
    handle_ready_button w uid pc = (false, w) := by
  simp [handle_ready_button, h]

/-! ## C5 — wallet authorize: failure condition and (non-)atomicity -/

/-- C5 counterexample: a wallet holding 5 rejects `authorize(hand 7, 10)`
(`InsufficientFunds`), yet afterwards the per-hand authorization record
reads 10, not 0 — the record is changed by the failing call, refuting the
claimed atomicity. -/
theorem c5_counterexample :
    (kvPoor.authorize 1 7 10).1 = false ∧
    ((kvPoor.authorize 1 7 10).2).auth 1 7 = 10 ∧
    ((kvPoor.authorize 1 7 10).2).balance 1 = 5 := by
  refine ⟨by decide, by decide, by decide⟩

/-- C5 (amended): `authorize(hand_id, amount)` fails with
InsufficientFunds exactly when `amount` exceeds the free balance; on
success the balance decreases by `amount`, on failure it is unchanged;
but in both outcomes the per-hand authorization record has already been
increased by `amount` — the escrow bump precedes the balance check and is
not rolled back, so the operation is not atomic. -/
theorem c5_amended (kv : KV) (u g : Nat) (amt : Int) :
    ((kv.authorize u g amt).1 = false ↔ kv.balance u < amt) ∧
    ((kv.authorize u g amt).2).auth u g = kv.auth u g + amt ∧
    ((kv.authorize u g amt).1 = false →
      ((kv.authorize u g amt).2).balance u = kv.balance u) ∧
    ((kv.authorize u g amt).1 = true →
      ((kv.authorize u g amt).2).balance u = kv.balance u - amt) := by
  refine ⟨authorize_fst kv u g amt, ?_,
    fun h => authorize_balance_false kv u g amt h u,
    fun h => by rw [authorize_balance_true kv u g amt h u]; simp⟩
  rw [authorize_auth kv u g amt u g]
  simp

/-- Witness for C5: the success and failure branches at concrete inputs. -/
theorem c5_amended_witness :
    (kvPoor.authorize 1 7 10).1 = false ∧
    ((kvPoor.authorize 1 7 10).2).balance 1 = kvPoor.balance 1 ∧
    (kvRich.authorize 1 7 10).1 = true ∧
    ((kvRich.authorize 1 7 10).2).balance 1 = kvRich.balance 1 - 10 :=
  ⟨by decide, (c5_amended kvPoor 1 7 10).2.2.1 (by decide),
   by decide, (c5_amended kvRich 1 7 10).2.2.2 (by decide)⟩

/-! ## C8 — call_or_check frame conditions -/

/-- C8: `call_check` authorizes exactly
`max_round_rate - round_rate` (0 on a check) from the wallet, raises the
player's round rate to `max_round_rate`, and leaves both the high-water
mark and the closing seat unchanged.  The hypothesis that the wallet
covers the delta is guaranteed by the handler, which diverts to all-in
whenever `value() <= amount`. -/
theorem c8_call_check (w : World) (i : Nat) (p : Player)
    (hp : w.game.players[i]? = some p)
    (hb : w.game.maxRoundRate - p.roundRate ≤ w.kv.balance p.userId) :
    (call_check w i).1 = true ∧
    ((call_check w i).2).kv.auth p.userId w.game.id
      = w.kv.auth p.userId w.game.id + (w.game.maxRoundRate - p.roundRate) ∧
    ((call_check w i).2).kv.balance p.userId
      = w.kv.balance p.userId - (w.game.maxRoundRate - p.roundRate) ∧
    ((call_check w i).2).game.players[i]?
      = some { p with roundRate := w.game.maxRoundRate } ∧
    ((call_check w i).2).game.maxRoundRate = w.game.maxRoundRate ∧
    ((call_check w i).2).game.tradingEndUserId = w.game.tradingEndUserId := by
  have hi : i < w.game.players.length := by
    rcases List.getElem?_eq_some.mp hp with ⟨h, _⟩
    exact h
  rcases hA2 : w.kv.authorize p.userId w.game.id (w.game.maxRoundRate - p.roundRate)
    with ⟨b, kv2⟩
  have hb2 : b = true := by
    by_contra hc
    have hbf : b = false := by simpa using hc
    subst hbf
    have hlt := (authorize_fst w.kv p.userId w.game.id (w.game.maxRoundRate - p.roundRate)).mp
      (by rw [hA2])
    exact absurd hlt (not_lt.mpr hb)
  subst hb2
  have hAtrue : (w.kv.authorize p.userId w.game.id (w.game.maxRoundRate - p.roundRate)).1 = true := by
    rw [hA2]
  have hauth2 : kv2.auth p.userId w.game.id
      = w.kv.auth p.userId w.game.id + (w.game.maxRoundRate - p.roundRate) := by
    have hx := authorize_auth w.kv p.userId w.game.id (w.game.maxRoundRate - p.roundRate)
      p.userId w.game.id
    rw [hA2] at hx
    simpa using hx
  have hbal2 : kv2.balance p.userId
      = w.kv.balance p.userId - (w.game.maxRoundRate - p.roundRate) := by
    have hx := authorize_balance_true w.kv p.userId w.game.id
      (w.game.maxRoundRate - p.roundRate) hAtrue p.userId
    rw [hA2] at hx
    simpa using hx
  have hrr : p.roundRate + (w.game.maxRoundRate - p.roundRate) = w.game.maxRoundRate := by
    ring
  refine ⟨?_, ?_, ?_, ?_, ?_, ?_⟩ <;>
    simp [call_check, hp, hA2, List.getElem?_set_self hi, hauth2, hbal2, hrr]

/-- Witness for C8 at a concrete check (delta 0) in the two-player hand. -/
theorem c8_call_check_witness :
    wTwo.game.players[1]? = some { userId := 2, state := PlayerState.ACTIVE, roundRate := 0 } ∧
    wTwo.game.maxRoundRate - (0 : Int) ≤ wTwo.kv.balance 2 ∧
    (call_check wTwo 1).1 = true ∧
    ((call_check wTwo 1).2).game.maxRoundRate = wTwo.game.maxRoundRate :=
  ⟨by decide, by decide,
   (c8_call_check wTwo 1 { userId := 2, state := PlayerState.ACTIVE, roundRate := 0 }
     (by decide) (by decide)).1,
   (c8_call_check wTwo 1 { userId := 2, state := PlayerState.ACTIVE, roundRate := 0 }
     (by decide) (by decide)).2.2.2.2.1⟩

/-! ## C7 — raise with short funds: redirect versus surfaced error -/

/-- C7 counterexample: in `wShort` the current player holds 30; a raise
of 25 needs the delta 25 + 20 − 0 = 45 > 30, but since 30 ≥ 25 the
handler does NOT redirect to all-in: the wallet raises
InsufficientFunds, which the handler reports as the action's outcome —
refuting the claim that every underfunded raise is redirected. -/
theorem c7_counterexample :
    wShort.kv.balance 2 < 25 + wShort.game.maxRoundRate - 0 ∧
    (raise_rate_bet_handler evalNone 99 10 wShort 25).1
      = RaiseOutcome.insufficientFunds ∧
    RaiseOutcome.insufficientFunds ≠ RaiseOutcome.allInRedirect := by
  refine ⟨by decide, by decide, by decide⟩

/-- C7 (amended): the handler redirects a RAISE to all-in only when the
free balance is below the raise amount itself.  When the balance covers
the raise amount but not the full delta
(`amount + max_round_rate - round_rate`), the raise fails with
InsufficientFunds — caught and reported, not redirected — and leaves the
escrow record incremented by the delta. -/
theorem c7_amended (e : List Player → List (List Nat)) (nid fuel : Nat)
    (w : World) (p : Player) (amt : Int)
    (hp : w.game.players[current_turn_index w.game]? = some p) :
    (w.kv.balance p.userId < amt →
      (raise_rate_bet_handler e nid fuel w amt).1 = RaiseOutcome.allInRedirect) ∧
    (amt ≤ w.kv.balance p.userId →
      w.kv.balance p.userId < amt + w.game.maxRoundRate - p.roundRate →
      raise_rate_bet_handler e nid fuel w amt =
        (RaiseOutcome.insufficientFunds,
         some { w with kv := (w.kv.inc_authorized_money p.userId w.game.id
                  (amt + w.game.maxRoundRate - p.roundRate)) })) := by
  constructor
  · intro h
    simp [raise_rate_bet_handler, hp, h]
  · intro h1 h2
    have hF : (w.kv.authorize p.userId w.game.id
        (amt + w.game.maxRoundRate - p.roundRate)).1 = false :=
      (authorize_fst _ _ _ _).mpr h2
    rcases hA2 : w.kv.authorize p.userId w.game.id
        (amt + w.game.maxRoundRate - p.roundRate) with ⟨b, kv2⟩
    have hbf : b = false := by
      rw [hA2] at hF
      simpa using hF
    subst hbf
    have hkv2 : kv2 = w.kv.inc_authorized_money p.userId w.game.id
        (amt + w.game.maxRoundRate - p.roundRate) := by
      have hs := authorize_snd_false _ _ _ _ hF
      rw [hA2] at hs
      simpa using hs
    simp only [raise_rate_bet_handler, hp]
    rw [if_neg (not_lt.mpr h1)]
    simp only [raise_rate_bet, hp, hA2, hkv2]

/-- Witness for C7 at the concrete short-stack raise. -/
theorem c7_amended_witness :
    wShort.game.players[current_turn_index wShort.game]?
      = some { userId := 2, state := PlayerState.ACTIVE, roundRate := 0 } ∧
    (25 : Int) ≤ wShort.kv.balance 2 ∧
    wShort.kv.balance 2 < 25 + wShort.game.maxRoundRate - 0 ∧
    raise_rate_bet_handler evalNone 99 10 wShort 25 =
      (RaiseOutcome.insufficientFunds,
       some { wShort with kv := (wShort.kv.inc_authorized_money 2 wShort.game.id
                (25 + wShort.game.maxRoundRate - 0)) }) :=
  ⟨by decide, by decide, by decide,
   (c7_amended evalNone 99 10 wShort
     { userId := 2, state := PlayerState.ACTIVE, roundRate := 0 } 25
     (by decide)).2 (by decide) (by decide)⟩

/-! ## C6 — which states accept seating and the deal -/

/-- C6 counterexample: in the FINISHED state a seating request is
rejected with no state change (the claim says FINISHED accepts seating),
while the deal transition IS accepted from FINISHED (the claim says only
INITIAL accepts it). -/
theorem c6_counterexample :
    (ready evalNone 99 10 wFinished 5 true 100).1 = false ∧
    (ready evalNone 99 10 wFinished 5 true 100).2 = some wFinished ∧
    (start evalNone 99 10 wFinished 100).1 = true := by
  exact ⟨rfl, rfl, rfl⟩

/-- C6 (amended): a seating request is accepted only in INITIAL — in
FINISHED and every other non-INITIAL state both seating paths reject with
no state change — while the deal transition is accepted from both INITIAL
and FINISHED (given a multi-member chat and enough seated players). -/
theorem c6_amended :
    (∀ e nid fuel w uid pc cm, w.game.state ≠ GameState.INITIAL →
      ready e nid fuel w uid pc cm = (false, some w)) ∧
    (∀ w uid pc, w.game.state ≠ GameState.INITIAL →
      handle_ready_button w uid pc = (false, w)) ∧
    (∀ e nid fuel w cm, w.game.state ≠ GameState.INITIAL →
      w.game.state ≠ GameState.FINISHED →
      start e nid fuel w cm = (false, some w)) ∧
    (∀ e nid fuel w cm,
      (w.game.state = GameState.INITIAL ∨ w.game.state = GameState.FINISHED) →
      cm - 1 ≠ 1 → MIN_PLAYERS ≤ w.game.players.length →
      (start e nid fuel w cm).1 = true) := by
  refine ⟨?_, ?_, ?_, ?_⟩
  · intro e nid fuel w uid pc cm h
    simp [ready, h]
  · intro w uid pc h
    exact handle_ready_button_reject w uid pc h
  · intro e nid fuel w cm h1 h2
    have : ¬(w.game.state = GameState.INITIAL ∨ w.game.state = GameState.FINISHED) := by
      rintro (h | h) <;> [exact h1 h; exact h2 h]
    simp [start, this]
  · intro e nid fuel w cm h1 h2 h3
    simp [start, h1, h2, h3]

/-- Witness for C6: the deal is accepted from the concrete FINISHED
two-player room. -/
theorem c6_amended_witness :
    (wFinished.game.state = GameState.INITIAL ∨
      wFinished.game.state = GameState.FINISHED) ∧
    (100 - 1 ≠ 1) ∧ MIN_PLAYERS ≤ wFinished.game.players.length ∧
    (start evalNone 99 10 wFinished 100).1 = true :=
  ⟨Or.inr rfl, by decide, by decide,
   c6_amended.2.2.2 evalNone 99 10 wFinished 100 (Or.inr rfl) (by decide) (by decide)⟩

/-! ## C9 — the pot/round-rate/escrow equality -/

theorem potInv_bump (w : World) (i : Nat) (p : Player) (amt : Int)
    (g' : Game) (kv' : KV)
    (hp : w.game.players[i]? = some p)
    (hnd : (w.game.players.map (fun q => q.userId)).Nodup)
    (hid : g'.id = w.game.id)
    (hpot : g'.pot = w.game.pot)
    (hpl : g'.players = w.game.players.set i { p with roundRate := p.roundRate + amt })
    (hauth : ∀ v G, kv'.auth v G =
      if v = p.userId ∧ G = w.game.id then w.kv.auth p.userId w.game.id + amt
      else w.kv.auth v G)
    (hinv : potInv w) : potInv (⟨g', kv'⟩ : World) := by
  unfold potInv sumRates sumAuth at hinv ⊢
  dsimp only
  rw [hpl, hid, hpot]
  rw [sum_map_set w.game.players i p _ (fun q => q.roundRate) hp]
  rw [sum_map_set w.game.players i p _ (fun q => kv'.auth q.userId w.game.id) hp]
  have hu : p.userId ∈ w.game.players.map (fun q => q.userId) :=
    List.mem_map.mpr ⟨p, mem_of_getElem_some _ _ _ hp, rfl⟩
  have hupd := sum_ids_update w.game.players (fun v => w.kv.auth v w.game.id)
      (fun v => kv'.auth v w.game.id) p.userId hnd hu
      (fun v hv => by
        show kv'.auth v w.game.id = w.kv.auth v w.game.id
        rw [hauth]; simp [hv])
  have hat : kv'.auth p.userId w.game.id = w.kv.auth p.userId w.game.id + amt := by
    rw [hauth]; simp
  dsimp only at hupd ⊢
  rw [hupd, hat]
  omega

theorem raise_preserves_potInv (w : World) (i : Nat) (amt : Int) (w' : World)
    (hnd : (w.game.players.map (fun q => q.userId)).Nodup)
    (h : raise_rate_bet w i amt = (true, w'))
    (hinv : potInv w) : potInv w' := by
  cases hp : w.game.players[i]? with
  | none =>
    simp only [raise_rate_bet, hp, Prod.mk.injEq, true_and] at h
    subst h
    exact hinv
  | some p =>
    rcases hA2 : w.kv.authorize p.userId w.game.id (amt + w.game.maxRoundRate - p.roundRate)
      with ⟨b, kv2⟩
    cases b with
    | false =>
      simp only [raise_rate_bet, hp, hA2, Prod.mk.injEq] at h
      exact absurd h.1 (by decide)
    | true =>
      simp only [raise_rate_bet, hp, hA2, Prod.mk.injEq, true_and] at h
      subst h
      refine potInv_bump w i p (amt + w.game.maxRoundRate - p.roundRate) _ _ hp hnd
        rfl rfl rfl (fun v G => ?_) hinv
      have hx := authorize_auth w.kv p.userId w.game.id
        (amt + w.game.maxRoundRate - p.roundRate) v G
      rw [hA2] at hx
      exact hx

theorem call_check_preserves_potInv (w : World) (i : Nat) (w' : World)
    (hnd : (w.game.players.map (fun q => q.userId)).Nodup)
    (h : call_check w i = (true, w'))
    (hinv : potInv w) : potInv w' := by
  cases hp : w.game.players[i]? with
  | none =>
    simp only [call_check, hp, Prod.mk.injEq, true_and] at h
    subst h
    exact hinv
  | some p =>
    rcases hA2 : w.kv.authorize p.userId w.game.id (w.game.maxRoundRate - p.roundRate)
      with ⟨b, kv2⟩
    cases b with
    | false =>
      simp only [call_check, hp, hA2, Prod.mk.injEq] at h
      exact absurd h.1 (by decide)
    | true =>
      simp only [call_check, hp, hA2, Prod.mk.injEq, true_and] at h
      subst h
      refine potInv_bump w i p (w.game.maxRoundRate - p.roundRate) _ _ hp hnd
        rfl rfl rfl (fun v G => ?_) hinv
      have hx := authorize_auth w.kv p.userId w.game.id
        (w.game.maxRoundRate - p.roundRate) v G
      rw [hA2] at hx
      exact hx

theorem all_in_preserves_potInv (w : World) (i : Nat)
    (hnd : (w.game.players.map (fun q => q.userId)).Nodup)
    (hinv : potInv w) : potInv (all_in w i).2 := by
  cases hp : w.game.players[i]? with
  | none => simpa only [all_in, hp] using hinv
  | some p =>
    simp only [all_in, hp]
    split <;>
      exact potInv_bump w i p (w.kv.balance p.userId) _ _ hp hnd rfl rfl rfl
        (fun v G => (authorize_all_spec w.kv p.userId w.game.id).2.2 v G) hinv

theorem to_pot_preserves_potInv (w : World) (hinv : potInv w) :
    potInv (to_pot w) := by
  unfold potInv sumRates sumAuth at hinv ⊢
  unfold to_pot
  dsimp only
  have h0 : ((w.game.players.map
      (fun p => ({ p with roundRate := 0 } : Player))).map
        (fun p => p.roundRate)).sum = 0 := by
    refine List.sum_eq_zero ?_
    intro x hx
    rcases List.mem_map.mp hx with ⟨q, hq, rfl⟩
    rcases List.mem_map.mp hq with ⟨q', _, rfl⟩
    rfl
  have h1 : ((w.game.players.map
      (fun p => ({ p with roundRate := 0 } : Player))).map
        (fun p => w.kv.auth p.userId w.game.id)).sum
      = (w.game.players.map (fun p => w.kv.auth p.userId w.game.id)).sum := by
    rw [List.map_map]
    rfl
  rw [h0, h1]
  omega

/-- C9 (amended): each of `raise_rate_bet`, `call_check`, `all_in` and
`to_pot` preserves `pot + Σ round_rate = Σ authorized_money(game.id)`
over seated players with distinct user ids — for `raise_rate_bet` and
`call_check` provided the wallet authorization succeeds (`all_in` and
`to_pot` unconditionally).  A failed raise or call bumps the escrow
without the matching round rate and breaks the equality, which is why the
success outcome appears as a hypothesis. -/
theorem c9_amended :
    (∀ w i amt w', (w.game.players.map (fun q => q.userId)).Nodup →
      raise_rate_bet w i amt = (true, w') → potInv w → potInv w') ∧
    (∀ w i w', (w.game.players.map (fun q => q.userId)).Nodup →
      call_check w i = (true, w') → potInv w → potInv w') ∧
    (∀ w i, (w.game.players.map (fun q => q.userId)).Nodup →
      potInv w → potInv (all_in w i).2) ∧
    (∀ w, potInv w → potInv (to_pot w)) :=
  ⟨raise_preserves_potInv, call_check_preserves_potInv,
   all_in_preserves_potInv, to_pot_preserves_potInv⟩

/-- C9 counterexample: `raise_rate_bet` with a wallet that covers the
raise amount but not the full delta raises InsufficientFunds after
bumping the escrow: the equality holds before the call and fails
afterwards, so the unconditional claim is false. -/
theorem c9_counterexample :
    potInv wShort ∧
    (raise_rate_bet wShort 1 25).1 = false ∧
    ¬ potInv (raise_rate_bet wShort 1 25).2 := by
  refine ⟨?_, by decide, ?_⟩ <;> unfold potInv sumRates sumAuth <;> decide

/-- Witness for C9: a successful raise in the two-player hand preserves
the equality. -/
theorem c9_amended_witness :
    (wTwo.game.players.map (fun q => q.userId)).Nodup ∧
    raise_rate_bet wTwo 0 5 = (true, (raise_rate_bet wTwo 0 5).2) ∧
    potInv wTwo ∧ potInv (raise_rate_bet wTwo 0 5).2 :=
  ⟨by decide, rfl, by unfold potInv sumRates sumAuth; decide,
   c9_amended.1 wTwo 0 5 (raise_rate_bet wTwo 0 5).2 (by decide) rfl
     (by unfold potInv sumRates sumAuth; decide)⟩

/-! ## C1 — money conservation along a hand -/

theorem handInv_bump (b0 : Nat → Int) (w : World) (i : Nat) (p : Player) (amt : Int)
    (g' : Game) (kv' : KV)
    (hp : w.game.players[i]? = some p)
    (hst : g'.state = w.game.state)
    (hpot : g'.pot = w.game.pot)
    (hpl : g'.players = w.game.players.set i { p with roundRate := p.roundRate + amt })
    (hbal : ∀ v, kv'.balance v =
      if v = p.userId then w.kv.balance p.userId - amt else w.kv.balance v)
    (hinv : handInv b0 w) : handInv b0 (⟨g', kv'⟩ : World) := by
  obtain ⟨hs, hnd, heq⟩ := hinv
  have hids : (w.game.players.set i { p with roundRate := p.roundRate + amt }).map
      (fun q => q.userId) = w.game.players.map (fun q => q.userId) := by
    rw [List.map_set]
    exact set_getElem_self _ i p.userId (by rw [List.getElem?_map, hp]; rfl)
  refine ⟨?_, ?_, ?_⟩
  · show g'.state ∈ streets
    rw [hst]; exact hs
  · show (g'.players.map (fun q => q.userId)).Nodup
    rw [hpl, hids]; exact hnd
  · show g'.pot + sumRates ⟨g', kv'⟩ = debited b0 ⟨g', kv'⟩
    unfold sumRates debited at heq ⊢
    dsimp only
    rw [hpl, hpot]
    rw [sum_map_set w.game.players i p _ (fun q => q.roundRate) hp]
    rw [sum_map_set w.game.players i p _
      (fun q => b0 q.userId - kv'.balance q.userId) hp]
    have hu : p.userId ∈ w.game.players.map (fun q => q.userId) :=
      List.mem_map.mpr ⟨p, mem_of_getElem_some _ _ _ hp, rfl⟩
    have hupd := sum_ids_update w.game.players
        (fun v => b0 v - w.kv.balance v) (fun v => b0 v - kv'.balance v) p.userId hnd hu
        (fun v hv => by
          show b0 v - kv'.balance v = b0 v - w.kv.balance v
          rw [hbal]; simp [hv])
    have hat : kv'.balance p.userId = w.kv.balance p.userId - amt := by
      rw [hbal]; simp
    dsimp only at hupd ⊢
    rw [hupd, hat]
    omega

theorem applyOp_preserves_handInv (b0 : Nat → Int) (w : World) (op : HandOp)
    (hinv : handInv b0 w) : handInv b0 (applyOp w op) := by
  obtain ⟨hs, hnd, heq⟩ := hinv
  have hsI : w.game.state ≠ GameState.INITIAL := by
    intro hI
    rw [hI] at hs
    simp [streets] at hs
  cases op with
  | seat uid pc =>
    simp only [applyOp]
    rw [handle_ready_button_reject w uid pc hsI]
    exact ⟨hs, hnd, heq⟩
  | raiseBet i amt =>
    simp only [applyOp]
    cases hp : w.game.players[i]? with
    | none => simp only [raise_rate_bet, hp]; exact ⟨hs, hnd, heq⟩
    | some p =>
      rcases hA2 : w.kv.authorize p.userId w.game.id
          (amt + w.game.maxRoundRate - p.roundRate) with ⟨b, kv2⟩
      cases b with
      | false =>
        simp only [raise_rate_bet, hp, hA2]
        have hkv2 : kv2 = w.kv.inc_authorized_money p.userId w.game.id
            (amt + w.game.maxRoundRate - p.roundRate) := by
          have hsnd := authorize_snd_false w.kv p.userId w.game.id
            (amt + w.game.maxRoundRate - p.roundRate) (by rw [hA2])
          rw [hA2] at hsnd
          exact hsnd
        subst hkv2
        exact ⟨hs, hnd, heq⟩
      | true =>
        simp only [raise_rate_bet, hp, hA2]
        refine handInv_bump b0 w i p (amt + w.game.maxRoundRate - p.roundRate) _ _ hp
          rfl rfl rfl (fun v => ?_) ⟨hs, hnd, heq⟩
        have hx := authorize_balance_true w.kv p.userId w.game.id
          (amt + w.game.maxRoundRate - p.roundRate) (by rw [hA2]) v
        rw [hA2] at hx
        exact hx
  | callCheckOp i =>
    simp only [applyOp]
    cases hp : w.game.players[i]? with
    | none => simp only [call_check, hp]; exact ⟨hs, hnd, heq⟩
    | some p =>
      rcases hA2 : w.kv.authorize p.userId w.game.id
          (w.game.maxRoundRate - p.roundRate) with ⟨b, kv2⟩
      cases b with
      | false =>
        simp only [call_check, hp, hA2]
        have hkv2 : kv2 = w.kv.inc_authorized_money p.userId w.game.id
            (w.game.maxRoundRate - p.roundRate) := by
          have hsnd := authorize_snd_false w.kv p.userId w.game.id
            (w.game.maxRoundRate - p.roundRate) (by rw [hA2])
          rw [hA2] at hsnd
          exact hsnd
        subst hkv2
        exact ⟨hs, hnd, heq⟩
      | true =>
        simp only [call_check, hp, hA2]
        refine handInv_bump b0 w i p (w.game.maxRoundRate - p.roundRate) _ _ hp
          rfl rfl rfl (fun v => ?_) ⟨hs, hnd, heq⟩
        have hx := authorize_balance_true w.kv p.userId w.game.id
          (w.game.maxRoundRate - p.roundRate) (by rw [hA2]) v
        rw [hA2] at hx
        exact hx
  | allInOp i =>
    simp only [applyOp]
    cases hp : w.game.players[i]? with
    | none => simp only [all_in, hp]; exact ⟨hs, hnd, heq⟩
    | some p =>
      simp only [all_in, hp]
      split <;>
      · refine handInv_bump b0 w i p (w.kv.balance p.userId) _ _ hp
          rfl rfl rfl (fun v => ?_) ⟨hs, hnd, heq⟩
        rw [(authorize_all_spec w.kv p.userId w.game.id).2.1 v]
        by_cases hv : v = p.userId <;> simp [hv]
  | toPotOp =>
    simp only [applyOp]
    refine ⟨hs, ?_, ?_⟩
    · show ((to_pot w).game.players.map (fun q => q.userId)).Nodup
      unfold to_pot
      dsimp only
      rw [List.map_map]
      exact hnd
    · show (to_pot w).game.pot + sumRates (to_pot w) = debited b0 (to_pot w)
      unfold to_pot
      unfold sumRates debited at heq ⊢
      dsimp only
      have h0 : ((w.game.players.map
          (fun p => ({ p with roundRate := 0 } : Player))).map
            (fun p => p.roundRate)).sum = 0 := by
        refine List.sum_eq_zero ?_
        intro x hx
        rcases List.mem_map.mp hx with ⟨q, hq, rfl⟩
        rcases List.mem_map.mp hq with ⟨q', _, rfl⟩
        rfl
      have h1 : ((w.game.players.map
          (fun p => ({ p with roundRate := 0 } : Player))).map
            (fun p => b0 p.userId - w.kv.balance p.userId)).sum
          = (w.game.players.map
              (fun p => b0 p.userId - w.kv.balance p.userId)).sum := by
        rw [List.map_map]
        rfl
      rw [h0, h1]
      omega

theorem runOps_preserves_handInv (b0 : Nat → Int) (w : World) (ops : List HandOp)
    (hinv : handInv b0 w) : handInv b0 (runOps w ops) := by
  induction ops generalizing w with
  | nil => exact hinv
  | cons op t ih =>
    show handInv b0 (runOps (applyOp w op) t)
    exact ih _ (applyOp_preserves_handInv b0 w op hinv)

/-- C1 counterexample: from the two-player hand start, a single raise of
5 by seat 0 gives `pot + Σ round_rate + Σ authorized_money = 10` while
only 5 was debited from the wallets — the claimed sum double counts the
escrow, so the stated equality is false. -/
theorem c1_counterexample :
    (runOps wTwo [HandOp.raiseBet 0 5]).game.pot
        + sumRates (runOps wTwo [HandOp.raiseBet 0 5])
        + sumAuth (runOps wTwo [HandOp.raiseBet 0 5]) = 10 ∧
    debited wTwo.kv.balance (runOps wTwo [HandOp.raiseBet 0 5]) = 5 ∧
    (10 : Int) ≠ 5 := by
  refine ⟨?_, ?_, by decide⟩ <;>
    simp only [sumRates, sumAuth, debited] <;> decide

/-- C1 (amended): along every sequence of seat and act operations within
a single hand (distinct seated user ids; seating keeps being rejected on
the streets), `pot + Σ round_rate` — without the authorized-money term —
equals the total money debited from the seated wallets since the hand
began; `Σ authorized_money` equals that same total separately rather
than in addition (C9), so the spec's three-term sum double counts. -/
theorem c1_amended (w0 : World) (ops : List HandOp)
    (hs : w0.game.state ∈ streets)
    (hnd : (w0.game.players.map (fun q => q.userId)).Nodup)
    (hpot : w0.game.pot = 0)
    (hrr : ∀ p ∈ w0.game.players, p.roundRate = 0) :
    (runOps w0 ops).game.pot + sumRates (runOps w0 ops)
      = debited w0.kv.balance (runOps w0 ops) := by
  have base : handInv w0.kv.balance w0 := by
    refine ⟨hs, hnd, ?_⟩
    unfold sumRates debited
    have h1 : (w0.game.players.map (fun p => p.roundRate)).sum = 0 := by
      refine List.sum_eq_zero ?_
      intro x hx
      rcases List.mem_map.mp hx with ⟨p, hp, rfl⟩
      exact hrr p hp
    have h2 : (w0.game.players.map
        (fun p => w0.kv.balance p.userId - w0.kv.balance p.userId)).sum = 0 := by
      refine List.sum_eq_zero ?_
      intro x hx
      rcases List.mem_map.mp hx with ⟨p, _, rfl⟩
      ring
    rw [hpot, h1, h2]
    omega
  exact (runOps_preserves_handInv w0.kv.balance w0 ops base).2.2

/-- Witness for C1: a raise, a call and a street close in the concrete
two-player hand. -/
theorem c1_amended_witness :
    wTwo.game.state ∈ streets ∧
    (wTwo.game.players.map (fun q => q.userId)).Nodup ∧
    wTwo.game.pot = 0 ∧
    (∀ p ∈ wTwo.game.players, p.roundRate = 0) ∧
    ((runOps wTwo [HandOp.raiseBet 0 5, HandOp.callCheckOp 1, HandOp.toPotOp]).game.pot
      + sumRates (runOps wTwo [HandOp.raiseBet 0 5, HandOp.callCheckOp 1, HandOp.toPotOp])
      = debited wTwo.kv.balance
          (runOps wTwo [HandOp.raiseBet 0 5, HandOp.callCheckOp 1, HandOp.toPotOp])) :=
  ⟨by decide, by decide, by decide, by decide,
   c1_amended wTwo [HandOp.raiseBet 0 5, HandOp.callCheckOp 1, HandOp.toPotOp]
     (by decide) (by decide) (by decide) (by decide)⟩

/-! ## Settlement lemmas shared by C2, C3, C4 and C10 -/

theorem inc_some (kv : KV) (u : Nat) (a : Int) (kv' : KV)
    (h : kv.inc u a = some kv') :
    kv'.auth = kv.auth ∧
    ∀ v, kv'.balance v = if v = u then kv.balance u + a else kv.balance v := by
  unfold KV.inc at h
  by_cases hc : kv.balance u + a < 0
  · rw [if_pos hc] at h; cases h
  · rw [if_neg hc] at h
    injection h with h2
    subst h2
    exact ⟨rfl, fun v => rfl⟩

theorem finishRatePay_frame (gp ta : Int) (np : Nat) (tier : List Nat)
    (w : World) (acc : List (Nat × Int)) (r : World × List (Nat × Int))
    (h : finishRatePay gp ta np tier w acc = some r) :
    r.1.kv.auth = w.kv.auth ∧ r.1.game.id = w.game.id ∧
    r.1.game.players = w.game.players := by
  induction tier generalizing w acc with
  | nil =>
    simp only [finishRatePay, Option.some.injEq] at h
    subst h
    exact ⟨rfl, rfl, rfl⟩
  | cons u rest ih =>
    simp only [finishRatePay] at h
    by_cases hpot : w.game.pot ≤ 0
    · rw [if_pos hpot] at h
      simp only [Option.some.injEq] at h
      subst h
      exact ⟨rfl, rfl, rfl⟩
    · rw [if_neg hpot] at h
      cases hinc : w.kv.inc u (winAmount w gp ta np u) with
      | none => rw [hinc] at h; cases h
      | some kv' =>
        rw [hinc] at h
        have hfr := ih _ _ h
        have hia := (inc_some _ _ _ _ hinc).1
        exact ⟨hfr.1.trans hia, hfr.2.1, hfr.2.2⟩

theorem finishRatePay_cap (gp ta : Int) (np : Nat) (tier : List Nat)
    (w : World) (acc : List (Nat × Int)) (r : World × List (Nat × Int))
    (h : finishRatePay gp ta np tier w acc = some r) :
    ∀ x ∈ r.2, x ∈ acc ∨ x.2 ≤ w.kv.auth x.1 w.game.id * (np : Int) := by
  induction tier generalizing w acc with
  | nil =>
    simp only [finishRatePay, Option.some.injEq] at h
    subst h
    exact fun x hx => Or.inl hx
  | cons u rest ih =>
    simp only [finishRatePay] at h
    by_cases hpot : w.game.pot ≤ 0
    · rw [if_pos hpot] at h
      simp only [Option.some.injEq] at h
      subst h
      exact fun x hx => Or.inl hx
    · rw [if_neg hpot] at h
      cases hinc : w.kv.inc u (winAmount w gp ta np u) with
      | none => rw [hinc] at h; cases h
      | some kv' =>
        rw [hinc] at h
        intro x hx
        have hia := (inc_some _ _ _ _ hinc).1
        rcases ih _ _ h x hx with hmem | hle
        · rcases List.mem_append.mp hmem with h1 | h2
          · exact Or.inl h1
          · right
            have hx2 : x = (u, winAmount w gp ta np u) := by simpa using h2
            subst hx2
            show winAmount w gp ta np u ≤ w.kv.auth u w.game.id * (np : Int)
            exact min_le_right _ _
        · right
          rw [hia] at hle
          exact hle

theorem finishRateTiers_frame (tiers : List (List Nat)) (w : World)
    (acc : List (Nat × Int)) (r : World × List (Nat × Int))
    (h : finishRateTiers tiers w acc = some r) :
    r.1.kv.auth = w.kv.auth ∧ r.1.game.id = w.game.id ∧
    r.1.game.players = w.game.players := by
  induction tiers generalizing w acc with
  | nil =>
    simp only [finishRateTiers, Option.some.injEq] at h
    subst h
    exact ⟨rfl, rfl, rfl⟩
  | cons tier rest ih =>
    simp only [finishRateTiers] at h
    by_cases hta : sum_authorized_money w tier ≤ 0
    · rw [if_pos hta] at h
      exact ih _ _ h
    · rw [if_neg hta] at h
      cases hpay : finishRatePay w.game.pot (sum_authorized_money w tier)
          w.game.players.length tier w acc with
      | none => rw [hpay] at h; cases h
      | some r1 =>
        rw [hpay] at h
        have h1 := finishRatePay_frame _ _ _ _ _ _ _ hpay
        have h2 := ih _ _ h
        exact ⟨h2.1.trans h1.1, h2.2.1.trans h1.2.1, h2.2.2.trans h1.2.2⟩

theorem finishRateTiers_cap (tiers : List (List Nat)) (w : World)
    (acc : List (Nat × Int)) (r : World × List (Nat × Int))
    (h : finishRateTiers tiers w acc = some r) :
    ∀ x ∈ r.2, x ∈ acc ∨
      x.2 ≤ w.kv.auth x.1 w.game.id * (w.game.players.length : Int) := by
  induction tiers generalizing w acc with
  | nil =>
    simp only [finishRateTiers, Option.some.injEq] at h
    subst h
    exact fun x hx => Or.inl hx
  | cons tier rest ih =>
    simp only [finishRateTiers] at h
    by_cases hta : sum_authorized_money w tier ≤ 0
    · rw [if_pos hta] at h
      exact ih _ _ h
    · rw [if_neg hta] at h
      cases hpay : finishRatePay w.game.pot (sum_authorized_money w tier)
          w.game.players.length tier w acc with
      | none => rw [hpay] at h; cases h
      | some r1 =>
        rw [hpay] at h
        intro x hx
        have hfr := finishRatePay_frame _ _ _ _ _ _ _ hpay
        rcases ih _ _ h x hx with hmem | hle
        · exact finishRatePay_cap _ _ _ _ _ _ _ hpay x hmem
        · right
          rw [hfr.1, hfr.2.1, hfr.2.2] at hle
          exact hle

theorem paidTo_append (a b : List (Nat × Int)) (u : Nat) :
    paidTo (a ++ b) u = paidTo a u + paidTo b u := by
  unfold paidTo
  rw [List.map_append, List.sum_append]

theorem finishRatePay_balance (gp ta : Int) (np : Nat) (tier : List Nat)
    (w : World) (acc : List (Nat × Int)) (r : World × List (Nat × Int))
    (h : finishRatePay gp ta np tier w acc = some r) :
    ∀ u, r.1.kv.balance u - paidTo r.2 u = w.kv.balance u - paidTo acc u := by
  induction tier generalizing w acc with
  | nil =>
    simp only [finishRatePay, Option.some.injEq] at h
    subst h
    exact fun u => rfl
  | cons u0 rest ih =>
    simp only [finishRatePay] at h
    by_cases hpot : w.game.pot ≤ 0
    · rw [if_pos hpot] at h
      simp only [Option.some.injEq] at h
      subst h
      exact fun u => rfl
    · rw [if_neg hpot] at h
      cases hinc : w.kv.inc u0 (winAmount w gp ta np u0) with
      | none => rw [hinc] at h; cases h
      | some kv' =>
        rw [hinc] at h
        intro u
        have hib := (inc_some _ _ _ _ hinc).2 u
        have hrec := ih _ _ h u
        rw [paidTo_append] at hrec
        have hsingle : paidTo [(u0, winAmount w gp ta np u0)] u
            = if u0 = u then winAmount w gp ta np u0 else 0 := by
          simp [paidTo]
        rw [hsingle] at hrec
        by_cases hu : u = u0
        · subst hu
          rw [hrec, hib, if_pos rfl, if_pos rfl]
          omega
        · have hu2 : ¬ (u0 = u) := fun hh => hu hh.symm
          rw [hrec, hib, if_neg hu, if_neg hu2]
          omega

theorem finishRateTiers_balance (tiers : List (List Nat)) (w : World)
    (acc : List (Nat × Int)) (r : World × List (Nat × Int))
    (h : finishRateTiers tiers w acc = some r) :
    ∀ u, r.1.kv.balance u - paidTo r.2 u = w.kv.balance u - paidTo acc u := by
  induction tiers generalizing w acc with
  | nil =>
    simp only [finishRateTiers, Option.some.injEq] at h
    subst h
    exact fun u => rfl
  | cons tier rest ih =>
    simp only [finishRateTiers] at h
    by_cases hta : sum_authorized_money w tier ≤ 0
    · rw [if_pos hta] at h
      exact ih _ _ h
    · rw [if_neg hta] at h
      cases hpay : finishRatePay w.game.pot (sum_authorized_money w tier)
          w.game.players.length tier w acc with
      | none => rw [hpay] at h; cases h
      | some r1 =>
        rw [hpay] at h
        intro u
        have h1 := finishRatePay_balance _ _ _ _ _ _ _ hpay u
        have h2 := ih _ _ h u
        omega

/-! ## C2 — all-in escrow and payout caps -/

/-- C2 counterexample: with a 5-unit pot and a three-way tie at 1 escrow
each (a folded player contributed the other 2), every tier member gets
`round(5/3) = 2`, and the third payout drives the pot to −1 — refuting
the claim that the pot never goes negative during distribution. -/
theorem c2_counterexample :
    (finish_rate wRoundingPot [[0, 1, 2]]).map (fun r => r.1.game.pot)
      = some (-1) ∧
    ¬ (0 : Int) ≤ -1 := by
  exact ⟨by decide, by decide⟩

/-- C2 (amended): going all-in moves exactly the free balance `B` into
escrow (never more), and every payout recorded by `finish_rate` is at
most that player's authorized money times the seat count; but the pot CAN
become negative during distribution — each payout is only issued while
the pot is still positive, yet the round-half-even share computed from
the tier-start pot snapshot can overshoot what is left (see the
counterexample). -/
theorem c2_amended :
    (∀ kv u g, (KV.authorize_all kv u g).1 = kv.balance u ∧
      ((KV.authorize_all kv u g).2).balance u = 0 ∧
      ((KV.authorize_all kv u g).2).auth u g = kv.auth u g + kv.balance u) ∧
    (∀ w tiers r, finish_rate w tiers = some r →
      ∀ x ∈ r.2, x.2 ≤ w.kv.auth x.1 w.game.id * (w.game.players.length : Int)) := by
  constructor
  · intro kv u g
    refine ⟨(authorize_all_spec kv u g).1, ?_, ?_⟩
    · rw [(authorize_all_spec kv u g).2.1 u]
      simp
    · rw [(authorize_all_spec kv u g).2.2 u g]
      simp
  · intro w tiers r h x hx
    rcases finishRateTiers_cap tiers w [] r h x hx with hmem | hle
    · exact absurd hmem (List.not_mem_nil x)
    · exact hle

/-- Witness for C2: the all-in facts at a concrete wallet and the payout
cap at a concrete settlement. -/
theorem c2_amended_witness :
    (kvPoor.authorize_all 1 7).1 = kvPoor.balance 1 ∧
    finish_rate wRoundingPot [[0, 1, 2]]
      = some ((finish_rate wRoundingPot [[0, 1, 2]]).getD (wRoundingPot, [])) ∧
    (0, 2) ∈ ((finish_rate wRoundingPot [[0, 1, 2]]).getD (wRoundingPot, [])).2 ∧
    (2 : Int) ≤ wRoundingPot.kv.auth 0 wRoundingPot.game.id
      * (wRoundingPot.game.players.length : Int) :=
  ⟨(c2_amended.1 kvPoor 1 7).1, rfl, by decide,
   c2_amended.2 wRoundingPot [[0, 1, 2]] _ rfl (0, 2) (by decide)⟩

/-! ## C3 — what the hand-end reset does and does not clear -/

/-- C3 counterexample: settling the concrete two-player hand leaves each
player's authorized_money for the finished hand id at 15, not 0 —
`approve` is never called anywhere in the code, refuting the claim. -/
theorem c3_counterexample :
    (finishHand evalAllTied 99 wSettle).map (fun r => r.1.kv.auth 0 7)
      = some 15 ∧
    some (15 : Int) ≠ some (0 : Int) := by
  exact ⟨by decide, by decide⟩

/-- C3 (amended): after `finish_rate` and the hand-end reset in
`_finish`, the Game is back in INITIAL with an empty seat list (hence no
seated player carries any round rate) and a zero pot, but the players'
authorized_money records for the settled hand id are NOT cleared:
`approve` is never invoked, so each record keeps its pre-settlement
value. -/
theorem c3_amended (eval : List Player → List (List Nat)) (nid : Nat)
    (w : World) (r : World × List (Nat × Int))
    (h : finishHand eval nid w = some r) :
    r.1.game.state = GameState.INITIAL ∧ r.1.game.players = [] ∧
    r.1.game.pot = 0 ∧
    ∀ u, r.1.kv.auth u w.game.id = w.kv.auth u w.game.id := by
  simp only [finishHand] at h
  cases hfr : finish_rate (to_pot w)
      (eval ((to_pot w).game.players_by [PlayerState.ACTIVE, PlayerState.ALL_IN])) with
  | none => rw [hfr] at h; cases h
  | some r2 =>
    rw [hfr] at h
    simp only [Option.some.injEq] at h
    subst h
    refine ⟨rfl, rfl, rfl, fun u => ?_⟩
    show r2.1.kv.auth u w.game.id = w.kv.auth u w.game.id
    rw [(finishRateTiers_frame _ _ _ _ hfr).1]
    rfl

/-- Witness for C3 at the concrete two-player settlement. -/
theorem c3_amended_witness :
    finishHand evalAllTied 99 wSettle
      = some ((finishHand evalAllTied 99 wSettle).getD (wSettle, [])) ∧
    ((finishHand evalAllTied 99 wSettle).getD (wSettle, [])).1.game.state
      = GameState.INITIAL ∧
    ((finishHand evalAllTied 99 wSettle).getD (wSettle, [])).1.kv.auth 0
        wSettle.game.id
      = wSettle.kv.auth 0 wSettle.game.id :=
  ⟨rfl, (c3_amended evalAllTied 99 wSettle _ rfl).1,
   (c3_amended evalAllTied 99 wSettle _ rfl).2.2.2 0⟩

/-! ## C10 — settlement credits only the recorded payouts -/

/-- C10: during settlement every wallet's balance changes by exactly the
sum of the payout tuples recorded for it by `finish_rate` (no other
wallet credit exists), and any remainder left in the pot is credited to
nobody: the hand-end `game.reset()` leaves the pot at 0. -/
theorem c10_settlement (eval : List Player → List (List Nat)) (nid : Nat)
    (w : World) (r : World × List (Nat × Int))
    (h : finishHand eval nid w = some r) :
    (∀ u, r.1.kv.balance u = w.kv.balance u + paidTo r.2 u) ∧
    r.1.game.pot = 0 := by
  simp only [finishHand] at h
  cases hfr : finish_rate (to_pot w)
      (eval ((to_pot w).game.players_by [PlayerState.ACTIVE, PlayerState.ALL_IN])) with
  | none => rw [hfr] at h; cases h
  | some r2 =>
    rw [hfr] at h
    simp only [Option.some.injEq] at h
    subst h
    refine ⟨fun u => ?_, rfl⟩
    have hb := finishRateTiers_balance _ _ _ _ hfr u
    have h0 : paidTo ([] : List (Nat × Int)) u = 0 := rfl
    have h2 : (to_pot w).kv.balance u = w.kv.balance u := rfl
    show r2.1.kv.balance u = w.kv.balance u + paidTo r2.2 u
    omega

/-- Witness for C10: the settlement of the concrete two-player hand
(each tied player is credited 15, the pot ends at 0). -/
theorem c10_settlement_witness :
    finishHand evalAllTied 99 wSettle
      = some ((finishHand evalAllTied 99 wSettle).getD (wSettle, [])) ∧
    ((finishHand evalAllTied 99 wSettle).getD (wSettle, [])).1.kv.balance 0
      = wSettle.kv.balance 0
        + paidTo ((finishHand evalAllTied 99 wSettle).getD (wSettle, [])).2 0 ∧
    ((finishHand evalAllTied 99 wSettle).getD (wSettle, [])).1.game.pot = 0 :=
  ⟨rfl, (c10_settlement evalAllTied 99 wSettle _ rfl).1 0,
   (c10_settlement evalAllTied 99 wSettle _ rfl).2⟩

/-! ## C4 — last player standing -/

/-- C4 counterexample: three seated, the two folded players wagered 100
each while the sole survivor went all-in for 1, so the pot holds 201; at
settlement the survivor's payout is capped at
`authorized × seat_count = 3`, not the whole pot, and 198 remain — the
claimed "credited the entire pot, leaving game.pot equal to 0" is
false. -/
theorem c4_counterexample :
    (finish_rate wLastStanding [[2]]).map (fun r => (r.1.game.pot, r.2))
      = some (198, [(2, 3)]) ∧
    wLastStanding.game.pot = 201 ∧
    ((3 : Int) ≠ 201) ∧ ((198 : Int) ≠ 0) := by
  exact ⟨by decide, by decide, by decide, by decide⟩

/-- C4 (amended): when the hand ends with a single remaining player, the
settlement runs with the one-player, one-tier input and credits that
player `min(pot, authorized × seat_count)`: the ENTIRE pot — leaving the
pot at 0 before the reset — exactly when the pot does not exceed the
player's cap (the proportional share of a sole tier member is the whole
pot, `round(pot·a/a) = pot`). -/
theorem c4_amended (w : World) (u : Nat)
    (ha : 0 < w.kv.auth u w.game.id)
    (hpot : 0 < w.game.pot)
    (hcap : w.game.pot ≤ w.kv.auth u w.game.id * (w.game.players.length : Int))
    (hbal : 0 ≤ w.kv.balance u) :
    finish_rate w [[u]] =
      some (⟨{ w.game with pot := 0 },
             w.kv.setBalance u (w.kv.balance u + w.game.pot)⟩,
            [(u, w.game.pot)]) := by
  have hta : sum_authorized_money w [u] = w.kv.auth u w.game.id := by
    simp [sum_authorized_money]
  have hwin : winAmount w w.game.pot (w.kv.auth u w.game.id)
      w.game.players.length u = w.game.pot := by
    unfold winAmount
    have hrnd : roundHalfEven (w.game.pot * w.kv.auth u w.game.id)
        (w.kv.auth u w.game.id) = w.game.pot := by
      unfold roundHalfEven
      have hdvd : Int.emod (w.game.pot * w.kv.auth u w.game.id)
          (w.kv.auth u w.game.id) = 0 := Int.mul_emod_left _ _
      have hdiv : Int.ediv (w.game.pot * w.kv.auth u w.game.id)
          (w.kv.auth u w.game.id) = w.game.pot :=
        Int.mul_ediv_cancel _ (ne_of_gt ha)
      rw [hdvd, hdiv]
      rw [if_pos (by omega : 2 * (0:Int) < w.kv.auth u w.game.id)]
    rw [hrnd]
    exact min_eq_left hcap
  have hinc : w.kv.inc u w.game.pot
      = some (w.kv.setBalance u (w.kv.balance u + w.game.pot)) := by
    unfold KV.inc
    rw [if_neg (by omega)]
  unfold finish_rate
  simp only [finishRateTiers, hta]
  rw [if_neg (not_le.mpr ha)]
  simp only [finishRatePay]
  rw [if_neg (not_le.mpr hpot)]
  rw [hwin, hinc]
  simp only [finishRatePay, finishRateTiers, List.nil_append, Option.some.injEq]
  rw [sub_self]

/-- Witness for C4: the sole survivor of the blinds-only hand (pot 15,
escrow 10, three seats) takes the whole pot. -/
theorem c4_amended_witness :
    (0 : Int) < wBlinds.kv.auth 2 wBlinds.game.id ∧
    (0 : Int) < wBlinds.game.pot ∧
    wBlinds.game.pot ≤ wBlinds.kv.auth 2 wBlinds.game.id
      * (wBlinds.game.players.length : Int) ∧
    (0 : Int) ≤ wBlinds.kv.balance 2 ∧
    finish_rate wBlinds [[2]] =
      some (⟨{ wBlinds.game with pot := 0 },
             wBlinds.kv.setBalance 2 (wBlinds.kv.balance 2 + wBlinds.game.pot)⟩,
            [(2, wBlinds.game.pot)]) :=
  ⟨by decide, by decide, by decide, by decide,
   c4_amended wBlinds 2 (by decide) (by decide) (by decide) (by decide)⟩

end Poker
